import Mathlib

/-!
Shallow embedding of the reconciliation engine of `src/app.py`
(Dynamic Budget & Actual Validator).

Modelling conventions:
* A spreadsheet cell is `Cell := Option String`: `none` models a
  null/NaN cell (`pd.isna`), `some s` models a cell whose Python
  `str()` rendering is `s`.  Digits and whitespace are modelled as
  ASCII, matching the inputs the application processes.
* Python `float` values are modelled as exact rationals `ℚ`; the
  numeric strings accepted by Python's `float()` over the restricted
  alphabet that survives `parse_number`'s stripping step (digits,
  `-`, `.`, `(`, `)`) are exactly `-?(\d+\.?\d*|\.\d+)`.
* String manipulation is carried out on `List Char` so that every
  definition evaluates by kernel reduction.
-/

set_option maxRecDepth 8000

namespace ValidationBot

/-- A raw cell: `none` models a null/NaN cell, `some s` a cell whose
string rendering is `s`. -/
abbrev Cell := Option String

/-- Python `str.strip()` (whitespace trimmed from both ends). -/
def pyStrip (l : List Char) : List Char :=
  ((l.dropWhile Char.isWhitespace).reverse.dropWhile Char.isWhitespace).reverse

/-- The characters kept by `re.sub(r"[^\d\-\.\,\(\)]", "", s)` in
`parse_number`: digits, minus, dot, comma and parentheses. -/
def keepChar (c : Char) : Bool :=
  c.isDigit || c = '-' || c = '.' || c = ',' || c = '(' || c = ')'

/-- Numeric value of a digit list read in base 10. -/
def digitsNat (l : List Char) : ℕ :=
  l.foldl (fun acc c => 10 * acc + (c.toNat - 48)) 0

/-- Unsigned part of Python `float()` on the restricted alphabet:
accepts `\d+\.?\d*` or `\.\d+`, whose value is the integer read from
all digits over `10 ^ (number of fractional digits)`. -/
def pyFloatCore (l : List Char) : Option ℚ :=
  match l with
  | '.' :: rest =>
    if rest ≠ [] ∧ rest.all Char.isDigit then
      some (mkRat (digitsNat rest) (10 ^ rest.length))
    else none
  | _ =>
    let intPart := l.takeWhile Char.isDigit
    let rest := l.dropWhile Char.isDigit
    if intPart = [] then none
    else
      match rest with
      | [] => some (mkRat (digitsNat intPart) 1)
      | '.' :: frac =>
        if frac.all Char.isDigit then
          some (mkRat (digitsNat intPart * 10 ^ frac.length + digitsNat frac)
            (10 ^ frac.length))
        else none
      | _ => none

/-- Python `float()` restricted to strings over the alphabet that
survives `parse_number`'s stripping (digits, `-`, `.`, `(`, `)`):
an optional leading minus followed by `\d+\.?\d*` or `\.\d+`. -/
def pyFloat (l : List Char) : Option ℚ :=
  match l with
  | '-' :: rest => (pyFloatCore rest).map Neg.neg
  | _ => pyFloatCore l

/-- `parse_number` from `src/app.py`: strip whitespace, reject blank,
remove every character that is not a digit/minus/dot/comma/paren,
treat a fully parenthesised string as a negated value, drop commas,
and convert; `none` models the Python `None` (Unparseable) result. -/
def parse_number (cell : Cell) : Option ℚ :=
  match cell with
  | none => none
  | some raw =>
    let t := pyStrip raw.data
    if t = [] then none
    else
      let u := t.filter keepChar
      if u.head? = some '(' ∧ u.getLast? = some ')' then
        (pyFloat (((u.drop 1).dropLast).filter (· ≠ ','))).map Neg.neg
      else
        pyFloat (u.filter (· ≠ ','))

example : parse_number (some "(1,234.50)") = some (-1234.5) := by
  have h : (1234.5 : ℚ) = mkRat 12345 10 := Rat.ofScientific_true_def
  rw [h]; decide
example : parse_number (some "1,234.50") = some 1234.5 := by
  have h : (1234.5 : ℚ) = mkRat 12345 10 := Rat.ofScientific_true_def
  rw [h]; decide
example : parse_number (some "") = none := by decide
example : parse_number (some "   ") = none := by decide
example : parse_number (some "abc") = none := by decide
example : parse_number (some "(abc)") = none := by decide
example : parse_number none = none := by decide
example : parse_number (some "$ (1,2)") = some (-12) := by decide
example : parse_number (some "(-5)") = some 5 := by decide
example : parse_number (some "-.5") = some (mkRat (-5) 10) := by decide
example : parse_number (some "12-3") = none := by decide

/-!
`similar` from `src/app.py`:
`SequenceMatcher(None, str(a).lower(), str(b).lower()).ratio()`.
The embedding follows difflib's algorithm for short strings (the
autojunk heuristic only activates for sequences of length ≥ 200 and
is therefore omitted): `find_longest_match` scans ending positions
`(i, j)` in ascending lexicographic order and keeps the first block
of maximal size; `get_matching_blocks` recurses on the windows to
the left and right of that block; `ratio` is twice the total matched
size over the total length (1 for two empty sequences).
-/

/-- A matching block: start position in `a`, start position in `b`,
and its size. -/
structure Match3 where
  i : Nat
  j : Nat
  size : Nat
deriving DecidableEq, Repr

/-- Length of the common run of `a` and `b` ending exactly at
positions `i` and `j`, not reaching below `alo`/`blo` (difflib's
`j2len` dynamic program). -/
def suffLen (a b : List Char) (alo blo : Nat) : Nat → Nat → Nat
  | 0, j => if alo ≤ 0 ∧ blo ≤ j ∧ a[0]? = b[j]? ∧ a[0]?.isSome then 1 else 0
  | i + 1, 0 =>
    if alo ≤ i + 1 ∧ blo ≤ 0 ∧ a[i + 1]? = b[0]? ∧ a[i + 1]?.isSome then 1 else 0
  | i + 1, j + 1 =>
    if alo ≤ i + 1 ∧ blo ≤ j + 1 ∧ a[i + 1]? = b[j + 1]? ∧ a[i + 1]?.isSome then
      1 + suffLen a b alo blo i j
    else 0

/-- One inner-loop step of `find_longest_match`: at ending position
`(i, j)`, replace the current best block if the run ending there is
strictly longer. -/
def flmStep (a b : List Char) (alo blo i : Nat) (best : Match3) (j : Nat) : Match3 :=
  let k := suffLen a b alo blo i j
  if best.size < k then ⟨i + 1 - k, j + 1 - k, k⟩ else best

/-- One outer-loop step of `find_longest_match`: scan all `j` in
`[blo, bhi)` for a fixed `i`. -/
def flmRow (a b : List Char) (alo blo bhi : Nat) (best : Match3) (i : Nat) : Match3 :=
  (List.range' blo (bhi - blo)).foldl (flmStep a b alo blo i) best

/-- difflib's `find_longest_match` on the window `[alo, ahi) × [blo, bhi)`
(junk-free case). -/
def flm (a b : List Char) (alo ahi blo bhi : Nat) : Match3 :=
  (List.range' alo (ahi - alo)).foldl (flmRow a b alo blo bhi) ⟨alo, blo, 0⟩

/-- Total size of difflib's matching blocks on a window, with fuel
for termination; every recursive call strictly shrinks the window,
so `fuel = (ahi - alo) + (bhi - blo) + 1` always suffices. -/
def matchesTotal (a b : List Char) : Nat → Nat → Nat → Nat → Nat → Nat
  | 0, _, _, _, _ => 0
  | fuel + 1, alo, ahi, blo, bhi =>
    let m := flm a b alo ahi blo bhi
    if m.size = 0 then 0
    else
      matchesTotal a b fuel alo m.i blo m.j + m.size +
        matchesTotal a b fuel (m.i + m.size) ahi (m.j + m.size) bhi

/-- difflib's `SequenceMatcher.ratio()`: `2 * M / (len a + len b)`,
and `1` when both sequences are empty. -/
def ratio (a b : List Char) : ℚ :=
  if a.length + b.length = 0 then 1
  else
    mkRat (2 * matchesTotal a b (a.length + b.length + 1) 0 a.length 0 b.length)
      (a.length + b.length)

/-- `similar` from `src/app.py`: the ratio of the two lowercased
strings (ASCII lowercasing, as in `str.lower` on the data the app
handles). -/
def similar (a b : String) : ℚ :=
  ratio (a.data.map Char.toLower) (b.data.map Char.toLower)

example : similar "abc" "abc" = 1 := by with_unfolding_all decide
example : similar "rent" "rnt" = 6/7 := by with_unfolding_all decide
example : similar "Rent" "rNT" = 6/7 := by with_unfolding_all decide
example : similar "aaba" "baaa" = 3/4 := by with_unfolding_all decide
example : similar "baaa" "aaba" = 1/2 := by with_unfolding_all decide
example : similar "ab" "bacb" = 2/3 := by with_unfolding_all decide
example : similar "bacb" "ab" = 1/3 := by with_unfolding_all decide
example : similar "abc" "xyz" = 0 := by with_unfolding_all decide
example : similar "" "" = 1 := by with_unfolding_all decide

/-!
The "Run Validation" block of `src/app.py` (lines 307–405): build the
right-side map over the selected row range, then iterate the left
side over the same range, matching exactly by normalized key and
otherwise by best fuzzy candidate, and comparing budget/actual
within tolerance.
-/

/-- Python `str.strip()` on a `String`. -/
def strStrip (s : String) : String := ⟨pyStrip s.data⟩

/-- Python `str.lower()` on a `String` (ASCII). -/
def strLower (s : String) : String := ⟨s.data.map Char.toLower⟩

/-- The user-selected column mapping (`mapping` dict in the source). -/
structure Mapping where
  left_name_idx : Nat
  left_budget_idx : Nat
  left_actual_idx : Nat
  right_name_idx : Nat
  right_budget_idx : Nat
  right_actual_idx : Nat
deriving DecidableEq, Repr

/-- `df.iat[r, c]` access: a missing row or column reads as a
null/NaN cell. -/
def getCell (grid : List (List Cell)) (r c : Nat) : Cell :=
  (grid.getD r []).getD c none

/-- One right-side record: source row, display name, parsed budget
and actual (`right_map` values in the source). -/
structure RightRec where
  row : Nat
  name : String
  budget : Option ℚ
  actual : Option ℚ
deriving DecidableEq, Repr

/-- A Python-`dict` assignment `m[k] = v` on an association list that
models dict insertion order: an existing key keeps its position and
gets the new value, a new key is appended. -/
def insertRight (m : List (String × RightRec)) (k : String) (v : RightRec) :
    List (String × RightRec) :=
  if m.any (fun p => p.1 = k) then
    m.map (fun p => if p.1 = k then (k, v) else p)
  else m ++ [(k, v)]

/-- Dict lookup `m[k]` / `k in m`. -/
def lookupRight (m : List (String × RightRec)) (k : String) : Option RightRec :=
  (m.find? (fun p => p.1 = k)).map (fun p => p.2)

/-- One iteration of the right-side map construction loop (source
lines 312–326): skip a blank-name row, otherwise store the row under
its trimmed lowercased name. -/
def rmStep (grid : List (List Cell)) (mp : Mapping)
    (m : List (String × RightRec)) (r : Nat) : List (String × RightRec) :=
  match getCell grid r mp.right_name_idx with
  | none => m
  | some s =>
    if strStrip s = "" then m
    else
      insertRight m (strLower (strStrip s))
        { row := r
          name := strStrip s
          budget := parse_number (getCell grid r mp.right_budget_idx)
          actual := parse_number (getCell grid r mp.right_actual_idx) }

/-- The right-side map construction loop (source lines 309–326):
iterate rows `start_row .. end_row`. -/
def buildRightMap (grid : List (List Cell)) (mp : Mapping)
    (start_row end_row : Nat) : List (String × RightRec) :=
  (List.range' start_row (end_row + 1 - start_row)).foldl (rmStep grid mp) []

/-- One step of the fuzzy scan (source lines 365–369): keep the
candidate with the strictly highest score so far, so the
first-encountered candidate wins ties. -/
def bfStep (key : String) (acc : Option RightRec × ℚ) (kv : String × RightRec) :
    Option RightRec × ℚ :=
  let s := similar key kv.1
  if acc.2 < s then (some kv.2, s) else acc

/-- The fuzzy scan's fold over the whole map, starting from
`(None, 0.0)`. -/
def bestFuzzy (m : List (String × RightRec)) (key : String) :
    Option RightRec × ℚ :=
  m.foldl (bfStep key) (none, 0)

/-- A human-readable note appended to an entry (modelled as an
inductive rather than a formatted string). -/
inductive Note
  | fuzzyMatch (score : ℚ)
  | noMatch
  | budgetUnparsable
  | budgetMismatch
  | actualUnparsable
  | actualMismatch
deriving DecidableEq, Repr

/-- Exact-then-fuzzy selection of the right-side record for a left
key (source lines 358–375), with the note the source appends. -/
def matchRight (rightMap : List (String × RightRec)) (left_key : String)
    (sim_thresh : ℚ) : Option RightRec × List Note :=
  match lookupRight rightMap left_key with
  | some rm => (some rm, [])
  | none =>
    let bf := bestFuzzy rightMap left_key
    match bf.1 with
    | some b =>
      if sim_thresh ≤ bf.2 then (some b, [Note.fuzzyMatch bf.2])
      else (none, [Note.noMatch])
    | none => (none, [Note.noMatch])

/-- One comparison entry (the `entry` dict of the source). -/
structure Entry where
  left_row : Nat
  left_name : String
  left_budget : Option ℚ
  left_actual : Option ℚ
  match_found : Bool
  right_row : Option Nat
  right_name : Option String
  right_budget : Option ℚ
  right_actual : Option ℚ
  budget_ok : Option Bool
  actual_ok : Option Bool
  notes : List Note
deriving DecidableEq, Repr

/-- The budget/actual comparison of the source (lines 385–401): if
either side failed to parse, the agreement is indeterminate (`none`)
with a note; otherwise it is `|left - right| ≤ tolerance`, with a
mismatch note when false. -/
def compareField (l r : Option ℚ) (tolerance : ℚ) (uNote mNote : Note) :
    Option Bool × List Note :=
  match r, l with
  | some rv, some lv =>
    let ok := decide (|lv - rv| ≤ tolerance)
    (some ok, if ok then [] else [mNote])
  | _, _ => (none, [uNote])

/-- Processing of one left-side row (source lines 331–405): skip
blank-name rows, match exactly then fuzzily, and compare both
numeric fields. -/
def processRow (grid : List (List Cell)) (mp : Mapping)
    (rightMap : List (String × RightRec)) (tolerance sim_thresh : ℚ)
    (r : Nat) : Option Entry :=
  match getCell grid r mp.left_name_idx with
  | none => none
  | some s =>
    if strStrip s = "" then none
    else
      let left_name := strStrip s
      let left_key := strLower left_name
      let left_budget := parse_number (getCell grid r mp.left_budget_idx)
      let left_actual := parse_number (getCell grid r mp.left_actual_idx)
      let mr := matchRight rightMap left_key sim_thresh
      match mr.1 with
      | none =>
        some { left_row := r, left_name := left_name
               left_budget := left_budget, left_actual := left_actual
               match_found := false
               right_row := none, right_name := none
               right_budget := none, right_actual := none
               budget_ok := none, actual_ok := none, notes := mr.2 }
      | some rm =>
        let bp := compareField left_budget rm.budget tolerance
          Note.budgetUnparsable Note.budgetMismatch
        let ap := compareField left_actual rm.actual tolerance
          Note.actualUnparsable Note.actualMismatch
        some { left_row := r, left_name := left_name
               left_budget := left_budget, left_actual := left_actual
               match_found := true
               right_row := some rm.row, right_name := some rm.name
               right_budget := rm.budget, right_actual := rm.actual
               budget_ok := bp.1, actual_ok := ap.1
               notes := mr.2 ++ bp.2 ++ ap.2 }

/-- The classification of source line 404: an entry joins the
mismatch list iff it is unmatched or one of the agreements is
explicitly false. -/
def mismatchCond (e : Entry) : Bool :=
  !e.match_found || e.budget_ok == some false || e.actual_ok == some false

/-- The accumulated output of one validation run. -/
structure RunOutput where
  results : List Entry
  mismatches : List Entry
deriving DecidableEq, Repr

/-- One iteration of the left-side loop (source lines 331–405):
append the produced entry to `results`, and to `mismatches` when the
classification of line 404 holds. -/
def vrStep (grid : List (List Cell)) (mp : Mapping)
    (rightMap : List (String × RightRec)) (tolerance sim_thresh : ℚ)
    (out : RunOutput) (r : Nat) : RunOutput :=
  match processRow grid mp rightMap tolerance sim_thresh r with
  | none => out
  | some e =>
    { results := out.results ++ [e]
      mismatches :=
        if mismatchCond e then out.mismatches ++ [e] else out.mismatches }

/-- The whole "Run Validation" block: build the right map over the
selected range, then process each row of the same range, collecting
every produced entry into `results` and the attention-needing ones
into `mismatches`. -/
def validationRun (grid : List (List Cell)) (mp : Mapping)
    (start_row end_row : Nat) (tolerance sim_thresh : ℚ) : RunOutput :=
  let rightMap := buildRightMap grid mp start_row end_row
  (List.range' start_row (end_row + 1 - start_row)).foldl
    (vrStep grid mp rightMap tolerance sim_thresh) ⟨[], []⟩

/-- `detect_header_row` from `src/app.py` (lines 59–84): parse the
first `min 6 ncols` cells of up to `max_check` leading rows and
report row 0 as a header when it has at most one numeric cell while
the following scanned rows average at least two.  `ncols` is the
(rectangular) column count `df.shape[1]`. -/
def detect_header_row (df : List (List Cell)) (ncols : Nat)
    (max_check : Nat := 6) : Option Nat :=
  if df.length < 2 then none
  else
    match (List.range (min max_check df.length)).map
        (fun i => (List.range (min 6 ncols)).map
          (fun j => parse_number (getCell df i j))) with
    | [] => none
    | first :: rest =>
      if rest = [] then none
      else
        if (first.filter Option.isSome).length ≤ 1 ∧
            (2 : ℚ) ≤ (rest.map
              (fun r => ((r.filter Option.isSome).length : ℚ))).sum /
              (rest.length : ℚ)
        then some 0 else none

/-- The six-column layout used in the examples below: left
name/budget/actual in columns 0–2, right name/budget/actual in
columns 3–5. -/
def mp012345 : Mapping := ⟨0, 1, 2, 3, 4, 5⟩

/-- The end-to-end example grid of the spec (section 8). -/
def specGrid : List (List Cell) :=
  [[some "Salaries", some "1,000", some "950", some "Salaries", some "1000", some "900"],
   [some "Rent", some "(500)", some "500", some "Rnt", some "500", some "500"]]

example :
    validationRun specGrid mp012345 0 1 (1/100) (3/5) =
      ⟨[⟨0, "Salaries", some 1000, some 950, true, some 0, some "Salaries",
          some 1000, some 900, some true, some false, [Note.actualMismatch]⟩,
        ⟨1, "Rent", some (-500), some 500, true, some 1, some "Rnt",
          some 500, some 500, some false, some true,
          [Note.fuzzyMatch (6/7), Note.budgetMismatch]⟩],
       [⟨0, "Salaries", some 1000, some 950, true, some 0, some "Salaries",
          some 1000, some 900, some true, some false, [Note.actualMismatch]⟩,
        ⟨1, "Rent", some (-500), some 500, true, some 1, some "Rnt",
          some 500, some 500, some false, some true,
          [Note.fuzzyMatch (6/7), Note.budgetMismatch]⟩]⟩ := by
  with_unfolding_all decide

example :
    detect_header_row
      [[some "Name", some "Budget", some "Actual"],
       [some "a", some "1", some "2"],
       [some "b", some "3", some "4"]] 3 = some 0 := by
  with_unfolding_all decide

example : detect_header_row [[some "1", some "2"]] 2 = none := by
  with_unfolding_all decide

/-!
Definitions used by the theorem statements below.
-/

/-- The "needs attention" classification as the spec words it: no
match found, or a disagreeing budget, or a disagreeing actual. -/
def needsAttention (e : Entry) : Bool :=
  decide (e.match_found = false ∨ e.budget_ok = some false ∨ e.actual_ok = some false)

/-- Number of checked columns of row `i` that parse as numeric, as
`detect_header_row` counts them. -/
def numericCount (df : List (List Cell)) (ncols i : Nat) : Nat :=
  ((((List.range (min 6 ncols)).map (fun j => parse_number (getCell df i j)))).filter
    Option.isSome).length

/-- The normalized key a named cell is indexed under. -/
def normKey (s : String) : String := strLower (strStrip s)

/-- Whether row `r` contributes a right-side record, and under which
key: `some k` iff the right-name cell of row `r` is non-blank with
normalized key `k`. -/
def rowKey (grid : List (List Cell)) (mp : Mapping) (r : Nat) : Option String :=
  match getCell grid r mp.right_name_idx with
  | none => none
  | some s => if strStrip s = "" then none else some (normKey s)

/-- The right-side record row `r` would contribute. -/
def rowRec (grid : List (List Cell)) (mp : Mapping) (r : Nat) : RightRec :=
  { row := r
    name := match getCell grid r mp.right_name_idx with
            | none => ""
            | some s => strStrip s
    budget := parse_number (getCell grid r mp.right_budget_idx)
    actual := parse_number (getCell grid r mp.right_actual_idx) }

/-- A two-row grid whose second row carries the right-side name
`"y"`; used to exhibit the dependence of the right index on the
selected row range. -/
def twoRowGrid : List (List Cell) :=
  [[some "a", some "1", some "2", some "x", some "1", some "2"],
   [some "b", some "1", some "2", some "y", some "1", some "2"]]

/-- A one-row grid whose right-side budget cell (`"abc"`) fails
numeric parsing while its name is present. -/
def unparsableBudgetGrid : List (List Cell) :=
  [[some "x", some "1", some "2", some "x", some "abc", some "7"]]

/-- A one-row grid with a parsable budget pair that disagrees beyond
tolerance (5 vs 7) and an unparsable actual pair. -/
def mixedGrid : List (List Cell) :=
  [[some "a", some "5", some "x", some "a", some "7", some "y"]]

/-- A one-row grid whose budgets agree exactly while both actual
cells fail parsing: its entry is checked but not attention-needing. -/
def indetGrid : List (List Cell) :=
  [[some "a", some "5", some "x", some "a", some "5", some "y"]]

/-!
## Helper lemmas
-/

theorem compareField_of_none {l r : Option ℚ} (t : ℚ) (u m : Note)
    (h : l = none ∨ r = none) : compareField l r t u m = (none, [u]) := by
  rcases h with h | h
  · subst h; rcases r with _ | rv <;> rfl
  · subst h; rcases l with _ | lv <;> rfl

theorem compareField_some (lv rv t : ℚ) (u m : Note) :
    compareField (some lv) (some rv) t u m =
      (some (decide (|lv - rv| ≤ t)),
        if decide (|lv - rv| ≤ t) = true then [] else [m]) := rfl

theorem compareField_snd_sub (l r : Option ℚ) (t : ℚ) (u m : Note) :
    (compareField l r t u m).2 = [] ∨ (compareField l r t u m).2 = [u] ∨
      (compareField l r t u m).2 = [m] := by
  rcases l with _ | lv <;> rcases r with _ | rv
  · exact Or.inr (Or.inl rfl)
  · exact Or.inr (Or.inl rfl)
  · exact Or.inr (Or.inl rfl)
  · rw [compareField_some]
    by_cases h : decide (|lv - rv| ≤ t) = true
    · rw [if_pos h]; exact Or.inl rfl
    · rw [if_neg h]; exact Or.inr (Or.inr rfl)

theorem bfStep_snd_le (key : String) (acc : Option RightRec × ℚ)
    (kv : String × RightRec) : acc.2 ≤ (bfStep key acc kv).2 := by
  unfold bfStep; dsimp only
  by_cases h : acc.2 < similar key kv.1
  · rw [if_pos h]; exact le_of_lt h
  · rw [if_neg h]

theorem bfStep_snd_ge (key : String) (acc : Option RightRec × ℚ)
    (kv : String × RightRec) : similar key kv.1 ≤ (bfStep key acc kv).2 := by
  unfold bfStep; dsimp only
  by_cases h : acc.2 < similar key kv.1
  · rw [if_pos h]
  · rw [if_neg h]; exact le_of_not_lt h

theorem foldl_bfStep_le (key : String) (l : List (String × RightRec)) :
    ∀ acc : Option RightRec × ℚ, acc.2 ≤ (l.foldl (bfStep key) acc).2 := by
  induction l with
  | nil => intro acc; exact le_refl _
  | cons x xs ih =>
    intro acc
    exact le_trans (bfStep_snd_le key acc x) (ih (bfStep key acc x))

theorem foldl_bfStep_ge (key : String) (l : List (String × RightRec)) :
    ∀ acc : Option RightRec × ℚ, ∀ kv ∈ l,
      similar key kv.1 ≤ (l.foldl (bfStep key) acc).2 := by
  induction l with
  | nil => intro acc kv h; cases h
  | cons x xs ih =>
    intro acc kv h
    rcases List.mem_cons.mp h with h | h
    · subst h
      exact le_trans (bfStep_snd_ge key acc kv) (foldl_bfStep_le key xs _)
    · exact ih _ kv h

theorem bestFuzzy_ge (m : List (String × RightRec)) (key : String) :
    ∀ kv ∈ m, similar key kv.1 ≤ (bestFuzzy m key).2 :=
  foldl_bfStep_ge key m (none, 0)

theorem bestFuzzy_nonneg (m : List (String × RightRec)) (key : String) :
    0 ≤ (bestFuzzy m key).2 :=
  foldl_bfStep_le key m (none, 0)

theorem foldl_bfStep_spec (key : String) (l : List (String × RightRec)) :
    ∀ acc : Option RightRec × ℚ,
      l.foldl (bfStep key) acc = acc ∨
      ∃ pre kv post, l = pre ++ kv :: post ∧
        (l.foldl (bfStep key) acc).1 = some kv.2 ∧
        (l.foldl (bfStep key) acc).2 = similar key kv.1 ∧
        acc.2 < similar key kv.1 ∧
        ∀ p ∈ pre, similar key p.1 < similar key kv.1 := by
  induction l with
  | nil => intro acc; exact Or.inl rfl
  | cons x xs ih =>
    intro acc
    simp only [List.foldl_cons]
    rcases ih (bfStep key acc x) with h | ⟨pre, kv, post, hl, h1, h2, h3, h4⟩
    · rw [h]
      by_cases hx : acc.2 < similar key x.1
      · refine Or.inr ⟨[], x, xs, rfl, ?_, ?_, hx, by intro p hp; cases hp⟩
        · unfold bfStep; dsimp only; rw [if_pos hx]
        · unfold bfStep; dsimp only; rw [if_pos hx]
      · left; unfold bfStep; dsimp only; rw [if_neg hx]
    · refine Or.inr ⟨x :: pre, kv, post, by simp [hl], h1, h2,
        lt_of_le_of_lt (bfStep_snd_le key acc x) h3, ?_⟩
      intro p hp
      rcases List.mem_cons.mp hp with hp | hp
      · subst hp
        exact lt_of_le_of_lt (bfStep_snd_ge key acc p) h3
      · exact h4 p hp

theorem bestFuzzy_spec (m : List (String × RightRec)) (key : String) :
    bestFuzzy m key = (none, 0) ∨
    ∃ pre kv post, m = pre ++ kv :: post ∧
      (bestFuzzy m key).1 = some kv.2 ∧
      (bestFuzzy m key).2 = similar key kv.1 ∧
      0 < similar key kv.1 ∧
      ∀ p ∈ pre, similar key p.1 < similar key kv.1 := by
  unfold bestFuzzy
  rcases foldl_bfStep_spec key m (none, 0) with h | ⟨pre, kv, post, hl, h1, h2, h3, h4⟩
  · exact Or.inl h
  · exact Or.inr ⟨pre, kv, post, hl, h1, h2, h3, h4⟩

theorem bestFuzzy_fst_none (m : List (String × RightRec)) (key : String)
    (h : (bestFuzzy m key).1 = none) : (bestFuzzy m key).2 = 0 := by
  rcases bestFuzzy_spec m key with h0 | ⟨_, _, _, _, h1, _, _, _⟩
  · rw [h0]
  · rw [h] at h1; cases h1

theorem processRow_matched (grid : List (List Cell)) (mp : Mapping)
    (rightMap : List (String × RightRec)) (tol thresh : ℚ) (r : Nat)
    (s : String) (rm : RightRec) (notes0 : List Note)
    (hname : getCell grid r mp.left_name_idx = some s)
    (hnb : ¬ strStrip s = "")
    (hmr : matchRight rightMap (strLower (strStrip s)) thresh = (some rm, notes0)) :
    processRow grid mp rightMap tol thresh r = some
      { left_row := r, left_name := strStrip s
        left_budget := parse_number (getCell grid r mp.left_budget_idx)
        left_actual := parse_number (getCell grid r mp.left_actual_idx)
        match_found := true
        right_row := some rm.row, right_name := some rm.name
        right_budget := rm.budget, right_actual := rm.actual
        budget_ok := (compareField (parse_number (getCell grid r mp.left_budget_idx))
          rm.budget tol Note.budgetUnparsable Note.budgetMismatch).1
        actual_ok := (compareField (parse_number (getCell grid r mp.left_actual_idx))
          rm.actual tol Note.actualUnparsable Note.actualMismatch).1
        notes := notes0 ++
          (compareField (parse_number (getCell grid r mp.left_budget_idx))
            rm.budget tol Note.budgetUnparsable Note.budgetMismatch).2 ++
          (compareField (parse_number (getCell grid r mp.left_actual_idx))
            rm.actual tol Note.actualUnparsable Note.actualMismatch).2 } := by
  unfold processRow
  rw [hname]
  dsimp only
  rw [if_neg hnb]
  rw [hmr]

theorem processRow_unmatched (grid : List (List Cell)) (mp : Mapping)
    (rightMap : List (String × RightRec)) (tol thresh : ℚ) (r : Nat)
    (s : String) (notes0 : List Note)
    (hname : getCell grid r mp.left_name_idx = some s)
    (hnb : ¬ strStrip s = "")
    (hmr : matchRight rightMap (strLower (strStrip s)) thresh = (none, notes0)) :
    processRow grid mp rightMap tol thresh r = some
      { left_row := r, left_name := strStrip s
        left_budget := parse_number (getCell grid r mp.left_budget_idx)
        left_actual := parse_number (getCell grid r mp.left_actual_idx)
        match_found := false
        right_row := none, right_name := none
        right_budget := none, right_actual := none
        budget_ok := none, actual_ok := none, notes := notes0 } := by
  unfold processRow
  rw [hname]
  dsimp only
  rw [if_neg hnb]
  rw [hmr]

theorem matchRight_exact (rightMap : List (String × RightRec)) (key : String)
    (thresh : ℚ) (rm : RightRec) (hex : lookupRight rightMap key = some rm) :
    matchRight rightMap key thresh = (some rm, []) := by
  unfold matchRight; rw [hex]

theorem matchRight_fuzzy_accept (rightMap : List (String × RightRec)) (key : String)
    (thresh : ℚ) (b : RightRec)
    (hnoex : lookupRight rightMap key = none)
    (hb : (bestFuzzy rightMap key).1 = some b)
    (ht : thresh ≤ (bestFuzzy rightMap key).2) :
    matchRight rightMap key thresh =
      (some b, [Note.fuzzyMatch ((bestFuzzy rightMap key).2)]) := by
  unfold matchRight
  rw [hnoex]
  dsimp only
  rw [hb]
  dsimp only
  rw [if_pos ht]

theorem matchRight_fuzzy_reject (rightMap : List (String × RightRec)) (key : String)
    (thresh : ℚ) (b : RightRec)
    (hnoex : lookupRight rightMap key = none)
    (hb : (bestFuzzy rightMap key).1 = some b)
    (ht : ¬ thresh ≤ (bestFuzzy rightMap key).2) :
    matchRight rightMap key thresh = (none, [Note.noMatch]) := by
  unfold matchRight
  rw [hnoex]
  dsimp only
  rw [hb]
  dsimp only
  rw [if_neg ht]

theorem matchRight_no_candidate (rightMap : List (String × RightRec)) (key : String)
    (thresh : ℚ)
    (hnoex : lookupRight rightMap key = none)
    (hb : (bestFuzzy rightMap key).1 = none) :
    matchRight rightMap key thresh = (none, [Note.noMatch]) := by
  unfold matchRight
  rw [hnoex]
  dsimp only
  rw [hb]

theorem lookupRight_insertRight (m : List (String × RightRec)) (k : String)
    (v : RightRec) (k' : String) :
    lookupRight (insertRight m k v) k' =
      if k' = k then some v else lookupRight m k' := by
  have hmap : ∀ l : List (String × RightRec),
      ((l.map (fun p => if p.1 = k then (k, v) else p)).find?
        (fun p => p.1 = k')).map (fun p => p.2) =
      if k' = k then (l.find? (fun p => p.1 = k)).map (fun _ => v)
      else (l.find? (fun p => p.1 = k')).map (fun p => p.2) := by
    intro l
    induction l with
    | nil => by_cases hk : k' = k <;> simp [hk]
    | cons x xs ih =>
      by_cases hx : x.1 = k <;> by_cases hk : k' = k <;>
        by_cases hx' : x.1 = k' <;>
          simp_all [List.find?_cons]
  unfold insertRight
  by_cases hany : m.any (fun p => p.1 = k) = true
  · rw [if_pos hany]
    show ((m.map _).find? _).map _ = _
    rw [hmap m]
    by_cases hk : k' = k
    · rw [if_pos hk, if_pos hk]
      obtain ⟨p, hmem, hp⟩ := List.any_eq_true.mp hany
      have hsome : (m.find? (fun p => p.1 = k)).isSome = true := by
        rw [List.find?_isSome]
        exact ⟨p, hmem, hp⟩
      obtain ⟨q, hq⟩ := Option.isSome_iff_exists.mp hsome
      rw [hq]
      rfl
    · rw [if_neg hk, if_neg hk]
      rfl
  · rw [if_neg hany]
    show ((m ++ [(k, v)]).find? _).map _ = _
    rw [List.find?_append]
    have hf : m.any (fun p => p.1 = k) = false := Bool.eq_false_iff.mpr hany
    by_cases hk : k' = k
    · subst hk
      have hnone : m.find? (fun p => p.1 = k') = none :=
        List.find?_eq_none.mpr (List.any_eq_false.mp hf)
      rw [hnone]
      simp
    · have h2 : ([(k, v)] : List (String × RightRec)).find? (fun p => p.1 = k') = none := by
        simp only [List.find?_cons]
        have : ¬ ((k, v).1 = k') := fun h => hk h.symm
        simp [this]
      rw [h2]
      rw [if_neg hk]
      rw [Option.or_none]
      rfl

theorem lookupRight_rmStep (grid : List (List Cell)) (mp : Mapping)
    (m : List (String × RightRec)) (r : Nat) (k : String) :
    lookupRight (rmStep grid mp m r) k =
      if rowKey grid mp r = some k then some (rowRec grid mp r)
      else lookupRight m k := by
  unfold rmStep rowKey rowRec normKey
  rcases h : getCell grid r mp.right_name_idx with _ | s
  · simp
  · dsimp only
    by_cases hb : strStrip s = ""
    · rw [if_pos hb, if_pos hb]
      simp
    · rw [if_neg hb, if_neg hb]
      rw [lookupRight_insertRight]
      by_cases hk : k = strLower (strStrip s)
      · subst hk
        rw [if_pos rfl, if_pos rfl]
      · rw [if_neg hk, if_neg (fun hh => hk (Option.some.inj hh).symm)]

theorem lookupRight_foldl_isSome (grid : List (List Cell)) (mp : Mapping)
    (k : String) :
    ∀ (l : List Nat) (init : List (String × RightRec)),
      (lookupRight (l.foldl (rmStep grid mp) init) k).isSome = true ↔
        (lookupRight init k).isSome = true ∨
          ∃ r ∈ l, rowKey grid mp r = some k := by
  intro l
  induction l with
  | nil => intro init; simp
  | cons r rs ih =>
    intro init
    rw [List.foldl_cons, ih (rmStep grid mp init r)]
    rw [lookupRight_rmStep]
    by_cases h : rowKey grid mp r = some k
    · rw [if_pos h]
      simp [h]
    · rw [if_neg h]
      constructor
      · rintro (hs | ⟨r', hr', hk'⟩)
        · exact Or.inl hs
        · exact Or.inr ⟨r', List.mem_cons_of_mem r hr', hk'⟩
      · rintro (hs | ⟨r', hr', hk'⟩)
        · exact Or.inl hs
        · rcases List.mem_cons.mp hr' with rfl | hr''
          · exact absurd hk' h
          · exact Or.inr ⟨r', hr'', hk'⟩

theorem lookupRight_foldl_preserve (grid : List (List Cell)) (mp : Mapping)
    (k : String) (v : RightRec) :
    ∀ (l : List Nat) (init : List (String × RightRec)),
      (∀ r' ∈ l, rowKey grid mp r' ≠ some k) →
      lookupRight init k = some v →
      lookupRight (l.foldl (rmStep grid mp) init) k = some v := by
  intro l
  induction l with
  | nil => intro init _ h; exact h
  | cons r rs ih =>
    intro init hnone h
    rw [List.foldl_cons]
    refine ih (rmStep grid mp init r) (fun r' hr' => hnone r' (List.mem_cons_of_mem r hr')) ?_
    rw [lookupRight_rmStep, if_neg (hnone r (List.mem_cons_self r rs))]
    exact h

theorem compareField_fst_none (l r : Option ℚ) (t : ℚ) (u m : Note)
    (h : (compareField l r t u m).1 = none) : (compareField l r t u m).2 = [u] := by
  rcases l with _ | lv <;> rcases r with _ | rv
  · rfl
  · rfl
  · rfl
  · rw [compareField_some] at h
    simp at h

theorem processRow_some_cases (grid : List (List Cell)) (mp : Mapping)
    (rightMap : List (String × RightRec)) (tol thresh : ℚ) (r : Nat) (en : Entry)
    (he : processRow grid mp rightMap tol thresh r = some en) :
    (en.match_found = false ∧ en.budget_ok = none ∧ en.actual_ok = none) ∨
    (en.match_found = true ∧
      en.budget_ok = (compareField en.left_budget en.right_budget tol
        Note.budgetUnparsable Note.budgetMismatch).1 ∧
      en.actual_ok = (compareField en.left_actual en.right_actual tol
        Note.actualUnparsable Note.actualMismatch).1 ∧
      ∃ notes0, en.notes = notes0 ++
        (compareField en.left_budget en.right_budget tol
          Note.budgetUnparsable Note.budgetMismatch).2 ++
        (compareField en.left_actual en.right_actual tol
          Note.actualUnparsable Note.actualMismatch).2) := by
  unfold processRow at he
  rcases hname : getCell grid r mp.left_name_idx with _ | s
  · rw [hname] at he; cases he
  · rw [hname] at he
    dsimp only at he
    by_cases hnb : strStrip s = ""
    · rw [if_pos hnb] at he; cases he
    · rw [if_neg hnb] at he
      rcases hmr : (matchRight rightMap (strLower (strStrip s)) thresh).1 with _ | rm
      · rw [hmr] at he
        cases he
        exact Or.inl ⟨rfl, rfl, rfl⟩
      · rw [hmr] at he
        cases he
        exact Or.inr ⟨rfl, rfl, rfl,
          ⟨(matchRight rightMap (strLower (strStrip s)) thresh).2, rfl⟩⟩

/-!
## Claims
-/

/-- C1: a left-side row with a non-blank name whose normalized key
is present exactly in the right index selects that right record as
an exact match: the result carries the indexed record, no fuzzy note
is recorded, and the fuzzy threshold is irrelevant to the outcome
(so no fuzzy candidate, even one scoring 1.0, can interfere). -/
theorem exact_match_precedence (grid : List (List Cell)) (mp : Mapping)
    (rightMap : List (String × RightRec)) (tol thresh : ℚ) (r : Nat)
    (s : String) (rm : RightRec)
    (hname : getCell grid r mp.left_name_idx = some s)
    (hnb : ¬ strStrip s = "")
    (hex : lookupRight rightMap (strLower (strStrip s)) = some rm) :
    ∃ e, processRow grid mp rightMap tol thresh r = some e ∧
      e.match_found = true ∧
      e.right_row = some rm.row ∧
      e.right_name = some rm.name ∧
      e.right_budget = rm.budget ∧
      e.right_actual = rm.actual ∧
      (∀ q : ℚ, Note.fuzzyMatch q ∉ e.notes) ∧
      (∀ thresh' : ℚ, processRow grid mp rightMap tol thresh' r =
        processRow grid mp rightMap tol thresh r) := by
  have hP : ∀ th : ℚ, processRow grid mp rightMap tol th r = some
      { left_row := r, left_name := strStrip s
        left_budget := parse_number (getCell grid r mp.left_budget_idx)
        left_actual := parse_number (getCell grid r mp.left_actual_idx)
        match_found := true
        right_row := some rm.row, right_name := some rm.name
        right_budget := rm.budget, right_actual := rm.actual
        budget_ok := (compareField (parse_number (getCell grid r mp.left_budget_idx))
          rm.budget tol Note.budgetUnparsable Note.budgetMismatch).1
        actual_ok := (compareField (parse_number (getCell grid r mp.left_actual_idx))
          rm.actual tol Note.actualUnparsable Note.actualMismatch).1
        notes := [] ++
          (compareField (parse_number (getCell grid r mp.left_budget_idx))
            rm.budget tol Note.budgetUnparsable Note.budgetMismatch).2 ++
          (compareField (parse_number (getCell grid r mp.left_actual_idx))
            rm.actual tol Note.actualUnparsable Note.actualMismatch).2 } :=
    fun th => processRow_matched grid mp rightMap tol th r s rm [] hname hnb
      (matchRight_exact rightMap (strLower (strStrip s)) th rm hex)
  refine ⟨_, hP thresh, rfl, rfl, rfl, rfl, rfl, ?_,
    fun th' => (hP th').trans (hP thresh).symm⟩
  intro q
  rcases compareField_snd_sub (parse_number (getCell grid r mp.left_budget_idx))
      rm.budget tol Note.budgetUnparsable Note.budgetMismatch with hb | hb | hb <;>
    rcases compareField_snd_sub (parse_number (getCell grid r mp.left_actual_idx))
      rm.actual tol Note.actualUnparsable Note.actualMismatch with ha | ha | ha <;>
    simp [hb, ha]

/-- C1 witness: in the spec's example grid, left row 0
(`"Salaries"`) matches right record (`row 0, "Salaries"`) exactly. -/
theorem exact_match_precedence_witness :
    ∃ e, processRow specGrid mp012345 (buildRightMap specGrid mp012345 0 1)
        (1/100) (3/5) 0 = some e ∧
      e.match_found = true ∧
      e.right_row = some 0 ∧
      e.right_name = some "Salaries" ∧
      e.right_budget = some 1000 ∧
      e.right_actual = some 900 ∧
      (∀ q : ℚ, Note.fuzzyMatch q ∉ e.notes) ∧
      (∀ thresh' : ℚ,
        processRow specGrid mp012345 (buildRightMap specGrid mp012345 0 1)
          (1/100) thresh' 0 =
        processRow specGrid mp012345 (buildRightMap specGrid mp012345 0 1)
          (1/100) (3/5) 0) :=
  exact_match_precedence specGrid mp012345 (buildRightMap specGrid mp012345 0 1)
    (1/100) (3/5) 0 "Salaries" ⟨0, "Salaries", some 1000, some 900⟩
    (by decide) (by decide) (by decide)

/-- C2: when the left key is absent from the right index, the
engine scores every candidate, retains the maximum-scoring one
(ties broken in favor of the first-encountered candidate in index
iteration order), and accepts it as a fuzzy match, with its score
recorded, iff the maximum score is at least the threshold
(inclusive boundary).  The threshold is positive for every
configuration the app allows (its slider enforces `0.4 ≤ thresh`). -/
theorem fuzzy_match_spec (grid : List (List Cell)) (mp : Mapping)
    (rightMap : List (String × RightRec)) (tol thresh : ℚ) (r : Nat)
    (s key : String)
    (hname : getCell grid r mp.left_name_idx = some s)
    (hnb : ¬ strStrip s = "")
    (hkey : key = strLower (strStrip s))
    (hnoex : lookupRight rightMap key = none)
    (hthr : 0 < thresh) :
    ∃ e, processRow grid mp rightMap tol thresh r = some e ∧
      (∀ kv ∈ rightMap, similar key kv.1 ≤ (bestFuzzy rightMap key).2) ∧
      (e.match_found = true ↔ thresh ≤ (bestFuzzy rightMap key).2) ∧
      (thresh ≤ (bestFuzzy rightMap key).2 →
        ∃ pre kv post, rightMap = pre ++ kv :: post ∧
          similar key kv.1 = (bestFuzzy rightMap key).2 ∧
          (∀ p ∈ pre, similar key p.1 < (bestFuzzy rightMap key).2) ∧
          e.right_row = some kv.2.row ∧
          e.right_name = some kv.2.name ∧
          Note.fuzzyMatch ((bestFuzzy rightMap key).2) ∈ e.notes) := by
  subst hkey
  by_cases hacc : thresh ≤ (bestFuzzy rightMap (strLower (strStrip s))).2
  · have hfst : ∃ b, (bestFuzzy rightMap (strLower (strStrip s))).1 = some b := by
      rcases bestFuzzy_spec rightMap (strLower (strStrip s)) with h0 | ⟨_, kv, _, _, h1, _, _, _⟩
      · rw [h0] at hacc
        exact absurd (lt_of_lt_of_le hthr hacc) (lt_irrefl 0)
      · exact ⟨kv.2, h1⟩
    obtain ⟨b, hb⟩ := hfst
    have hmr := matchRight_fuzzy_accept rightMap (strLower (strStrip s)) thresh b hnoex hb hacc
    have he := processRow_matched grid mp rightMap tol thresh r s b
      [Note.fuzzyMatch ((bestFuzzy rightMap (strLower (strStrip s))).2)] hname hnb hmr
    refine ⟨_, he, bestFuzzy_ge rightMap _, iff_of_true rfl hacc, ?_⟩
    intro _
    rcases bestFuzzy_spec rightMap (strLower (strStrip s)) with h0 | ⟨pre, kv, post, hl, h1, h2, _, h4⟩
    · rw [h0] at hacc
      exact absurd (lt_of_lt_of_le hthr hacc) (lt_irrefl 0)
    · have hbkv : b = kv.2 := by
        rw [hb] at h1
        exact Option.some.inj h1
      refine ⟨pre, kv, post, hl, h2.symm, ?_, ?_, ?_, ?_⟩
      · intro p hp
        rw [h2]
        exact h4 p hp
      · rw [hbkv]
      · rw [hbkv]
      · simp
  · have hmr : matchRight rightMap (strLower (strStrip s)) thresh = (none, [Note.noMatch]) := by
      rcases hfst : (bestFuzzy rightMap (strLower (strStrip s))).1 with _ | b
      · exact matchRight_no_candidate rightMap (strLower (strStrip s)) thresh hnoex hfst
      · exact matchRight_fuzzy_reject rightMap (strLower (strStrip s)) thresh b hnoex hfst hacc
    have he := processRow_unmatched grid mp rightMap tol thresh r s [Note.noMatch] hname hnb hmr
    exact ⟨_, he, bestFuzzy_ge rightMap _, iff_of_false (by simp) hacc,
      fun h => absurd h hacc⟩

/-- C2 witness: left row 1 of the spec grid (`"Rent"`) is absent
from the right index and fuzzy-matching applies with threshold 3/5. -/
theorem fuzzy_match_spec_witness :
    ∃ e, processRow specGrid mp012345 (buildRightMap specGrid mp012345 0 1)
        (1/100) (3/5) 1 = some e ∧
      (∀ kv ∈ buildRightMap specGrid mp012345 0 1,
        similar "rent" kv.1 ≤
          (bestFuzzy (buildRightMap specGrid mp012345 0 1) "rent").2) ∧
      (e.match_found = true ↔
        (3/5 : ℚ) ≤ (bestFuzzy (buildRightMap specGrid mp012345 0 1) "rent").2) ∧
      ((3/5 : ℚ) ≤ (bestFuzzy (buildRightMap specGrid mp012345 0 1) "rent").2 →
        ∃ pre kv post, buildRightMap specGrid mp012345 0 1 = pre ++ kv :: post ∧
          similar "rent" kv.1 =
            (bestFuzzy (buildRightMap specGrid mp012345 0 1) "rent").2 ∧
          (∀ p ∈ pre, similar "rent" p.1 <
            (bestFuzzy (buildRightMap specGrid mp012345 0 1) "rent").2) ∧
          e.right_row = some kv.2.row ∧
          e.right_name = some kv.2.name ∧
          Note.fuzzyMatch ((bestFuzzy (buildRightMap specGrid mp012345 0 1) "rent").2) ∈
            e.notes) :=
  fuzzy_match_spec specGrid mp012345 (buildRightMap specGrid mp012345 0 1)
    (1/100) (3/5) 1 "Rent" "rent"
    (by decide) (by decide) (by decide) (by decide) (by norm_num)

/-- C3: for a matched pairing, an unparsable budget on either side
gives an indeterminate budget agreement with a note; otherwise the
agreement is `|left - right| ≤ tolerance`, inclusive at the
boundary.  The same holds for the actual values. -/
theorem agreement_tolerance_spec (grid : List (List Cell)) (mp : Mapping)
    (rightMap : List (String × RightRec)) (tol thresh : ℚ) (r : Nat) (e : Entry)
    (he : processRow grid mp rightMap tol thresh r = some e)
    (hm : e.match_found = true) :
    ((e.left_budget = none ∨ e.right_budget = none) →
      e.budget_ok = none ∧ Note.budgetUnparsable ∈ e.notes) ∧
    (∀ lb rb : ℚ, e.left_budget = some lb → e.right_budget = some rb →
      e.budget_ok = some (decide (|lb - rb| ≤ tol)) ∧
      (e.budget_ok = some true ↔ |lb - rb| ≤ tol) ∧
      (|lb - rb| = tol → e.budget_ok = some true)) ∧
    ((e.left_actual = none ∨ e.right_actual = none) →
      e.actual_ok = none ∧ Note.actualUnparsable ∈ e.notes) ∧
    (∀ la ra : ℚ, e.left_actual = some la → e.right_actual = some ra →
      e.actual_ok = some (decide (|la - ra| ≤ tol)) ∧
      (e.actual_ok = some true ↔ |la - ra| ≤ tol) ∧
      (|la - ra| = tol → e.actual_ok = some true)) := by
  unfold processRow at he
  rcases hname : getCell grid r mp.left_name_idx with _ | s
  · rw [hname] at he; cases he
  · rw [hname] at he
    dsimp only at he
    by_cases hnb : strStrip s = ""
    · rw [if_pos hnb] at he; cases he
    · rw [if_neg hnb] at he
      rcases hmr : (matchRight rightMap (strLower (strStrip s)) thresh).1 with _ | rm
      · rw [hmr] at he
        cases he
        cases hm
      · rw [hmr] at he
        cases he
        dsimp only at hm ⊢
        refine ⟨?_, ?_, ?_, ?_⟩
        · intro h
          have hc := compareField_of_none tol Note.budgetUnparsable Note.budgetMismatch h
          rw [hc]
          exact ⟨rfl, by simp⟩
        · intro lb rb hlb hrb
          rw [hlb, hrb, compareField_some]
          refine ⟨rfl, ?_, ?_⟩
          · simp
          · intro heq
            simp [heq]
        · intro h
          have hc := compareField_of_none tol Note.actualUnparsable Note.actualMismatch h
          rw [hc]
          exact ⟨rfl, by simp⟩
        · intro la ra hla hra
          rw [hla, hra, compareField_some]
          refine ⟨rfl, ?_, ?_⟩
          · simp
          · intro heq
            simp [heq]

/-- C3 witness: on `mixedGrid` (budgets 5 vs 7 with tolerance 1,
actuals unparsable on both sides) the matched entry has a
disagreeing budget and an indeterminate actual with its note. -/
theorem agreement_tolerance_spec_witness :
    (((some (5 : ℚ) : Option ℚ) = none ∨ (some (7 : ℚ) : Option ℚ) = none) →
      (Entry.budget_ok ⟨0, "a", some 5, none, true, some 0, some "a", some 7, none,
        some false, none, [Note.budgetMismatch, Note.actualUnparsable]⟩) = none ∧
      Note.budgetUnparsable ∈ [Note.budgetMismatch, Note.actualUnparsable]) ∧
    (∀ lb rb : ℚ, (some (5 : ℚ) : Option ℚ) = some lb →
      (some (7 : ℚ) : Option ℚ) = some rb →
      (some false : Option Bool) = some (decide (|lb - rb| ≤ (1 : ℚ))) ∧
      ((some false : Option Bool) = some true ↔ |lb - rb| ≤ (1 : ℚ)) ∧
      (|lb - rb| = (1 : ℚ) → (some false : Option Bool) = some true)) ∧
    (((none : Option ℚ) = none ∨ (none : Option ℚ) = none) →
      (none : Option Bool) = none ∧
      Note.actualUnparsable ∈ [Note.budgetMismatch, Note.actualUnparsable]) ∧
    (∀ la ra : ℚ, (none : Option ℚ) = some la → (none : Option ℚ) = some ra →
      (none : Option Bool) = some (decide (|la - ra| ≤ (1 : ℚ))) ∧
      ((none : Option Bool) = some true ↔ |la - ra| ≤ (1 : ℚ)) ∧
      (|la - ra| = (1 : ℚ) → (none : Option Bool) = some true)) :=
  agreement_tolerance_spec mixedGrid mp012345
    (buildRightMap mixedGrid mp012345 0 0) 1 (3/5) 0
    ⟨0, "a", some 5, none, true, some 0, some "a", some 7, none,
      some false, none, [Note.budgetMismatch, Note.actualUnparsable]⟩
    (by with_unfolding_all decide) (by decide)

/-- C4: a cell whose stripped form is wrapped in one parenthesis
pair parses to the negation of the inner content with commas removed
(and to Unparseable when the inner content fails numeric
conversion); a non-parenthesized stripped form has its commas
removed and is numerically converted.  Concretely,
`parse("(1,234.50)") = -1234.50` and `parse("1,234.50") = 1234.50`. -/
theorem parse_paren_spec :
    parse_number (some "(1,234.50)") = some (-1234.5) ∧
    parse_number (some "1,234.50") = some 1234.5 ∧
    parse_number (some "(abc)") = none ∧
    (∀ s : String,
      pyStrip s.data ≠ [] →
      ((pyStrip s.data).filter keepChar).head? = some '(' →
      ((pyStrip s.data).filter keepChar).getLast? = some ')' →
      parse_number (some s) =
        (pyFloat (((((pyStrip s.data).filter keepChar).drop 1).dropLast).filter
          (fun c => c ≠ ','))).map Neg.neg) ∧
    (∀ s : String,
      pyStrip s.data ≠ [] →
      ¬(((pyStrip s.data).filter keepChar).head? = some '(' ∧
        ((pyStrip s.data).filter keepChar).getLast? = some ')') →
      parse_number (some s) =
        pyFloat (((pyStrip s.data).filter keepChar).filter (fun c => c ≠ ','))) := by
  have h : (1234.5 : ℚ) = mkRat 12345 10 := Rat.ofScientific_true_def
  refine ⟨by rw [h]; decide, by rw [h]; decide, by decide, ?_, ?_⟩
  · intro s h1 h2 h3
    simp only [parse_number, if_neg h1]
    rw [if_pos ⟨h2, h3⟩]
  · intro s h1 h2
    simp only [parse_number, if_neg h1]
    rw [if_neg h2]

/-- C4 witness: the parenthesized rule applied at `"(1,234.50)"` and
the plain rule applied at `"1,234.50"`. -/
theorem parse_paren_spec_witness :
    parse_number (some "(1,234.50)") =
      (pyFloat ((((pyStrip "(1,234.50)".data).filter keepChar).drop 1).dropLast.filter
        (fun c => c ≠ ','))).map Neg.neg ∧
    parse_number (some "1,234.50") =
      pyFloat (((pyStrip "1,234.50".data).filter keepChar).filter (fun c => c ≠ ',')) :=
  ⟨parse_paren_spec.2.2.2.1 "(1,234.50)" (by decide) (by decide) (by decide),
   parse_paren_spec.2.2.2.2 "1,234.50" (by decide) (by decide)⟩

/-- C5: trivially bad input is handled by one consistent policy:
null/NaN, empty and blank cells as well as strings with no
convertible numeric content all yield Unparseable (`none`), and
`parse_number` is a pure function, deterministic on identical
input. -/
theorem parse_bad_input_policy :
    parse_number none = none ∧
    parse_number (some "") = none ∧
    parse_number (some "   ") = none ∧
    parse_number (some " \t ") = none ∧
    parse_number (some "abc") = none ∧
    ∀ c : Cell, parse_number c = parse_number c := by
  refine ⟨by decide, by decide, by decide, by decide, by decide, fun c => rfl⟩

/-- C7 counterexample: row 1 of `twoRowGrid` carries the non-blank
right-side name `"y"`, yet with `endRow = 0` its record is absent
from the right index, and enlarging the range to `endRow = 1`
changes the index — contradicting the claim that the row range
restricts the left side only. -/
theorem right_index_row_range_counterexample :
    getCell twoRowGrid 1 mp012345.right_name_idx = some "y" ∧
    ¬ strStrip "y" = "" ∧
    lookupRight (buildRightMap twoRowGrid mp012345 0 0) "y" = none ∧
    lookupRight (buildRightMap twoRowGrid mp012345 0 1) "y" =
      some ⟨1, "y", some 1, some 2⟩ ∧
    buildRightMap twoRowGrid mp012345 0 0 ≠ buildRightMap twoRowGrid mp012345 0 1 := by
  decide

/-- C7 amended: the startRow/endRow restriction applies to both
sides: the right index is built from exactly the non-blank-name rows
within `[startRow, endRow]`, so a key is available iff some row in
that range provides it — changing the range can change the available
right-side records. -/
theorem right_index_row_range_spec (grid : List (List Cell)) (mp : Mapping)
    (start_row end_row : Nat) (k : String) :
    (lookupRight (buildRightMap grid mp start_row end_row) k).isSome = true ↔
      ∃ r, start_row ≤ r ∧ r ≤ end_row ∧ rowKey grid mp r = some k := by
  unfold buildRightMap
  rw [lookupRight_foldl_isSome]
  constructor
  · rintro (hs | ⟨r, hr, hk⟩)
    · simp [lookupRight] at hs
    · rw [List.mem_range'] at hr
      obtain ⟨i, hi, rfl⟩ := hr
      exact ⟨start_row + 1 * i, by omega, by omega, hk⟩
  · rintro ⟨r, h1, h2, hk⟩
    exact Or.inr ⟨r, List.mem_range'.mpr ⟨r - start_row, by omega, by omega⟩, hk⟩

/-- C10: the right index excludes a row only for a blank name: a row
whose budget/actual fails parsing is still indexed under its
normalized key (the failed field stored as Unparseable), and any
matched entry whose right budget is Unparseable gets an
indeterminate budget agreement with a note instead of being
dropped. -/
theorem right_index_keeps_unparseable (grid : List (List Cell)) (mp : Mapping)
    (start_row end_row r : Nat) (s k : String)
    (h1 : start_row ≤ r) (h2 : r ≤ end_row)
    (hn : getCell grid r mp.right_name_idx = some s)
    (hnb : ¬ strStrip s = "")
    (hk : k = strLower (strStrip s))
    (hlast : ∀ r', r < r' → r' ≤ end_row → rowKey grid mp r' ≠ some k) :
    lookupRight (buildRightMap grid mp start_row end_row) k =
      some (rowRec grid mp r) ∧
    (rowRec grid mp r).budget = parse_number (getCell grid r mp.right_budget_idx) ∧
    (rowRec grid mp r).actual = parse_number (getCell grid r mp.right_actual_idx) ∧
    (∀ tol thresh : ℚ, ∀ rl : Nat, ∀ e : Entry,
      processRow grid mp (buildRightMap grid mp start_row end_row) tol thresh rl =
        some e →
      e.match_found = true → e.right_budget = none →
      e.budget_ok = none ∧ Note.budgetUnparsable ∈ e.notes) := by
  have hrk : rowKey grid mp r = some k := by
    subst hk
    unfold rowKey normKey
    rw [hn]
    dsimp only
    rw [if_neg hnb]
  refine ⟨?_, rfl, rfl, ?_⟩
  · unfold buildRightMap
    have e1 : start_row + (r - start_row) = r := by omega
    have e2 : (end_row + 1 - r) + (r - start_row) = end_row + 1 - start_row := by omega
    have hsplit : List.range' start_row (end_row + 1 - start_row) =
        List.range' start_row (r - start_row) ++ List.range' r (end_row + 1 - r) := by
      have h := List.range'_append_1 start_row (r - start_row) (end_row + 1 - r)
      rw [e1] at h
      rw [e2] at h
      exact h.symm
    rw [hsplit, List.foldl_append]
    have hr2 : List.range' r (end_row + 1 - r) = r :: List.range' (r + 1) (end_row - r) := by
      rw [show end_row + 1 - r = (end_row - r) + 1 from by omega, List.range'_succ]
    rw [hr2, List.foldl_cons]
    apply lookupRight_foldl_preserve
    · intro r' hr'
      rw [List.mem_range'] at hr'
      obtain ⟨i, hi, rfl⟩ := hr'
      exact hlast _ (by omega) (by omega)
    · rw [lookupRight_rmStep, if_pos hrk]
  · intro tol thresh rl e he hm hrb
    rcases processRow_some_cases grid mp _ tol thresh rl e he with
      ⟨hf, _, _⟩ | ⟨_, hbok, _, notes0, hnotes⟩
    · rw [hf] at hm; cases hm
    · have hnone := compareField_of_none (l := e.left_budget) (r := e.right_budget)
        tol Note.budgetUnparsable Note.budgetMismatch (Or.inr hrb)
      constructor
      · rw [hbok, hnone]
      · rw [hnotes, hnone]
        simp

/-- C10 witness: in `unparsableBudgetGrid` the right budget `"abc"`
fails to parse, yet the row is indexed under `"x"` with its budget
stored as Unparseable, and a matched entry against it gets an
indeterminate budget agreement with a note. -/
theorem right_index_keeps_unparseable_witness :
    lookupRight (buildRightMap unparsableBudgetGrid mp012345 0 0) "x" =
      some (rowRec unparsableBudgetGrid mp012345 0) ∧
    (rowRec unparsableBudgetGrid mp012345 0).budget = none ∧
    (rowRec unparsableBudgetGrid mp012345 0).budget =
      parse_number (getCell unparsableBudgetGrid 0 mp012345.right_budget_idx) ∧
    (∀ tol thresh : ℚ, ∀ rl : Nat, ∀ e : Entry,
      processRow unparsableBudgetGrid mp012345
        (buildRightMap unparsableBudgetGrid mp012345 0 0) tol thresh rl = some e →
      e.match_found = true → e.right_budget = none →
      e.budget_ok = none ∧ Note.budgetUnparsable ∈ e.notes) := by
  have h := right_index_keeps_unparseable unparsableBudgetGrid mp012345 0 0 0 "x" "x"
    (by decide) (by decide) (by decide) (by decide) (by decide)
    (fun r' hlt hle => absurd (lt_of_lt_of_le hlt hle) (lt_irrefl 0))
  exact ⟨h.1, by decide, h.2.1, h.2.2.2⟩

theorem mismatchCond_eq_needsAttention (e : Entry) :
    mismatchCond e = needsAttention e := by
  unfold mismatchCond needsAttention
  cases e.match_found <;> rcases e.budget_ok with _ | b <;>
    rcases e.actual_ok with _ | c <;> first
      | rfl
      | (cases b <;> first
          | rfl
          | (cases c <;> rfl))
      | (cases c <;> rfl)

theorem vr_fold_invariant (grid : List (List Cell)) (mp : Mapping)
    (rightMap : List (String × RightRec)) (tol thresh : ℚ) :
    ∀ (l : List Nat) (out : RunOutput),
      out.mismatches = out.results.filter needsAttention →
      (∀ en ∈ out.results, ∃ r, processRow grid mp rightMap tol thresh r = some en) →
      ((l.foldl (vrStep grid mp rightMap tol thresh) out).mismatches =
        (l.foldl (vrStep grid mp rightMap tol thresh) out).results.filter
          needsAttention ∧
       ∀ en ∈ (l.foldl (vrStep grid mp rightMap tol thresh) out).results,
         ∃ r, processRow grid mp rightMap tol thresh r = some en) := by
  intro l
  induction l with
  | nil => intro out h1 h2; exact ⟨h1, h2⟩
  | cons r rs ih =>
    intro out h1 h2
    rw [List.foldl_cons]
    apply ih
    · unfold vrStep
      rcases he : processRow grid mp rightMap tol thresh r with _ | e
      · exact h1
      · dsimp only
        by_cases hc : mismatchCond e = true
        · rw [if_pos hc]
          have hna : needsAttention e = true := by
            rw [← mismatchCond_eq_needsAttention]; exact hc
          rw [List.filter_append, ← h1]
          simp [hna]
        · rw [if_neg hc]
          have hna : needsAttention e = false := by
            rw [← mismatchCond_eq_needsAttention]
            exact Bool.eq_false_iff.mpr hc
          rw [List.filter_append, ← h1]
          simp [hna]
    · unfold vrStep
      rcases he : processRow grid mp rightMap tol thresh r with _ | e
      · exact h2
      · dsimp only
        intro en hen
        rcases List.mem_append.mp hen with h | h
        · exact h2 en h
        · rcases List.mem_singleton.mp h with rfl
          exact ⟨r, he⟩

/-- C8: an entry is counted among the mismatches iff it is unmatched
or one of its agreements explicitly disagrees; a matched entry whose
only defect is an indeterminate (unparseable) field stays in the
checked results, gets the unparseable note, and is not counted as
needing attention. -/
theorem attention_classification (grid : List (List Cell)) (mp : Mapping)
    (start_row end_row : Nat) (tol thresh : ℚ) :
    (validationRun grid mp start_row end_row tol thresh).mismatches =
      (validationRun grid mp start_row end_row tol thresh).results.filter
        needsAttention ∧
    ∀ en ∈ (validationRun grid mp start_row end_row tol thresh).results,
      en.match_found = true →
      (en.budget_ok = none → Note.budgetUnparsable ∈ en.notes) ∧
      (en.actual_ok = none → Note.actualUnparsable ∈ en.notes) ∧
      (en.budget_ok ≠ some false → en.actual_ok ≠ some false →
        en ∉ (validationRun grid mp start_row end_row tol thresh).mismatches) := by
  have hinv := vr_fold_invariant grid mp (buildRightMap grid mp start_row end_row)
    tol thresh (List.range' start_row (end_row + 1 - start_row)) ⟨[], []⟩ rfl
    (by intro en h; cases h)
  have hvr : validationRun grid mp start_row end_row tol thresh =
      (List.range' start_row (end_row + 1 - start_row)).foldl
        (vrStep grid mp (buildRightMap grid mp start_row end_row) tol thresh)
        ⟨[], []⟩ := rfl
  rw [hvr]
  refine ⟨hinv.1, ?_⟩
  intro en hen hm
  obtain ⟨r, he⟩ := hinv.2 en hen
  rcases processRow_some_cases grid mp _ tol thresh r en he with
    ⟨hf, _, _⟩ | ⟨_, hbok, haok, notes0, hnotes⟩
  · rw [hf] at hm; cases hm
  · refine ⟨?_, ?_, ?_⟩
    · intro hb
      rw [hbok] at hb
      have h2 := compareField_fst_none _ _ _ _ _ hb
      rw [hnotes, h2]
      simp
    · intro ha
      rw [haok] at ha
      have h2 := compareField_fst_none _ _ _ _ _ ha
      rw [hnotes, h2]
      simp
    · intro hb ha
      rw [hinv.1]
      intro hmem
      have hattn := (List.mem_filter.mp hmem).2
      unfold needsAttention at hattn
      rw [decide_eq_true_eq] at hattn
      rcases hattn with h | h | h
      · rw [hm] at h; cases h
      · exact hb h
      · exact ha h

/-- C8 witness: on `indetGrid` (budgets agree, actuals unparsable)
the matched entry is checked, carries the actual-unparsable note,
and is not counted among the mismatches. -/
theorem attention_classification_witness :
    (validationRun indetGrid mp012345 0 0 1 (3/5)).mismatches =
      (validationRun indetGrid mp012345 0 0 1 (3/5)).results.filter
        needsAttention ∧
    Note.actualUnparsable ∈
      (⟨0, "a", some 5, none, true, some 0, some "a", some 5, none,
        some true, none, [Note.actualUnparsable]⟩ : Entry).notes ∧
    (⟨0, "a", some 5, none, true, some 0, some "a", some 5, none,
        some true, none, [Note.actualUnparsable]⟩ : Entry) ∉
      (validationRun indetGrid mp012345 0 0 1 (3/5)).mismatches := by
  have h := attention_classification indetGrid mp012345 0 0 1 (3/5)
  have hmem : (⟨0, "a", some 5, none, true, some 0, some "a", some 5, none,
      some true, none, [Note.actualUnparsable]⟩ : Entry) ∈
      (validationRun indetGrid mp012345 0 0 1 (3/5)).results := by
    with_unfolding_all decide
  have h2 := h.2 _ hmem rfl
  exact ⟨h.1, h2.2.1 rfl, h2.2.2 (by decide) (by decide)⟩

/-- C9: header detection never raises and returns row 0 or nothing:
it reports row 0 exactly when the grid has at least two rows, the
first row has at most one checked column parsing as numeric, and the
remaining scanned rows (at most five more) average at least two
numeric columns; in every other case it reports no header. -/
theorem detect_header_row_spec (df : List (List Cell)) (ncols : Nat) :
    detect_header_row df ncols =
      if 2 ≤ df.length ∧ numericCount df ncols 0 ≤ 1 ∧
          2 * (min 6 df.length - 1) ≤
            ((List.range' 1 (min 6 df.length - 1)).map (numericCount df ncols)).sum
      then some 0 else none := by
  unfold detect_header_row
  by_cases hlen : df.length < 2
  · rw [if_pos hlen, if_neg (fun h => absurd h.1 (by omega))]
  · rw [if_neg hlen]
    push_neg at hlen
    have htop : 2 ≤ min 6 df.length := le_min (by norm_num) hlen
    have hrange : List.range (min 6 df.length) =
        0 :: List.range' 1 (min 6 df.length - 1) := by
      conv =>
        lhs
        rw [List.range_eq_range',
          show min 6 df.length = (min 6 df.length - 1) + 1 from by omega,
          List.range'_succ]
    rw [hrange]
    dsimp only [List.map_cons]
    rw [if_neg (by simp; omega)]
    rw [List.map_map, List.length_map, List.length_range']
    have hcomp : ((fun r : List (Option ℚ) =>
        ((r.filter Option.isSome).length : ℚ)) ∘
        (fun i => (List.range (min 6 ncols)).map
          (fun j => parse_number (getCell df i j)))) =
        ((fun n : ℕ => (n : ℚ)) ∘ numericCount df ncols) := by
      funext i
      rfl
    rw [hcomp, ← List.map_map, ← Nat.cast_list_sum]
    have hpos : (0 : ℚ) < ((min 6 df.length - 1 : ℕ) : ℚ) := by
      have h1 : 1 ≤ min 6 df.length - 1 := by omega
      exact_mod_cast Nat.lt_of_lt_of_le Nat.zero_lt_one h1
    have hiff : ((((List.range (min 6 ncols)).map
          (fun j => parse_number (getCell df 0 j))).filter Option.isSome).length ≤ 1 ∧
        (2 : ℚ) ≤ ((((List.range' 1 (min 6 df.length - 1)).map
          (numericCount df ncols)).sum : ℕ) : ℚ) / ((min 6 df.length - 1 : ℕ) : ℚ)) ↔
        (2 ≤ df.length ∧ numericCount df ncols 0 ≤ 1 ∧
          2 * (min 6 df.length - 1) ≤
            ((List.range' 1 (min 6 df.length - 1)).map (numericCount df ncols)).sum) := by
      rw [le_div_iff₀ hpos]
      constructor
      · rintro ⟨hc, havg⟩
        exact ⟨hlen, hc, by exact_mod_cast havg⟩
      · rintro ⟨_, hc, hnat⟩
        exact ⟨hc, by exact_mod_cast hnat⟩
    rw [if_congr hiff rfl rfl]

theorem foldl_inv {α β : Type} (P : β → Prop) (f : β → α → β) :
    ∀ (l : List α) (init : β), P init →
      (∀ acc x, x ∈ l → P acc → P (f acc x)) → P (l.foldl f init) := by
  intro l
  induction l with
  | nil => intro init h _; exact h
  | cons x xs ih =>
    intro init h hstep
    rw [List.foldl_cons]
    exact ih (f init x) (hstep init x (List.mem_cons_self x xs) h)
      (fun acc y hy hacc => hstep acc y (List.mem_cons_of_mem x hy) hacc)

theorem foldl_size_mono {α : Type} (f : Match3 → α → Match3)
    (hf : ∀ m x, m.size ≤ (f m x).size) :
    ∀ (l : List α) (init : Match3), init.size ≤ (l.foldl f init).size := by
  intro l
  induction l with
  | nil => intro init; exact le_refl _
  | cons x xs ih => intro init; exact le_trans (hf init x) (ih (f init x))

theorem suffLen_le (a b : List Char) (alo blo : Nat) :
    ∀ i j, suffLen a b alo blo i j ≠ 0 →
      alo + suffLen a b alo blo i j ≤ i + 1 ∧
      blo + suffLen a b alo blo i j ≤ j + 1 := by
  intro i
  induction i with
  | zero =>
    intro j h
    unfold suffLen at h ⊢
    by_cases hc : alo ≤ 0 ∧ blo ≤ j ∧ a[0]? = b[j]? ∧ a[0]?.isSome = true
    · rw [if_pos hc] at h ⊢
      obtain ⟨hca, hcb, -, -⟩ := hc
      omega
    · rw [if_neg hc] at h
      exact absurd rfl h
  | succ i ih =>
    intro j h
    cases j with
    | zero =>
      unfold suffLen at h ⊢
      by_cases hc : alo ≤ i + 1 ∧ blo ≤ 0 ∧ a[i + 1]? = b[0]? ∧ a[i + 1]?.isSome = true
      · rw [if_pos hc] at h ⊢
        obtain ⟨hca, hcb, -, -⟩ := hc
        omega
      · rw [if_neg hc] at h
        exact absurd rfl h
    | succ j =>
      unfold suffLen at h ⊢
      by_cases hc : alo ≤ i + 1 ∧ blo ≤ j + 1 ∧ a[i + 1]? = b[j + 1]? ∧
          a[i + 1]?.isSome = true
      · rw [if_pos hc] at h ⊢
        obtain ⟨hca, hcb, -, -⟩ := hc
        by_cases hz : suffLen a b alo blo i j = 0
        · rw [hz]
          omega
        · have := ih j hz
          omega
      · rw [if_neg hc] at h
        exact absurd rfl h

theorem flmStep_size_le (a b : List Char) (alo blo i : Nat) (best : Match3) (j : Nat) :
    best.size ≤ (flmStep a b alo blo i best j).size := by
  unfold flmStep
  dsimp only
  by_cases h : best.size < suffLen a b alo blo i j
  · rw [if_pos h]
    exact le_of_lt h
  · rw [if_neg h]

theorem flmStep_size_ge (a b : List Char) (alo blo i : Nat) (best : Match3) (j : Nat) :
    suffLen a b alo blo i j ≤ (flmStep a b alo blo i best j).size := by
  unfold flmStep
  dsimp only
  by_cases h : best.size < suffLen a b alo blo i j
  · rw [if_pos h]
  · rw [if_neg h]
    exact le_of_not_lt h

/-- The invariant of `find_longest_match`: a nonempty best block lies
inside the window. -/
def flmInv (alo ahi blo bhi : Nat) (m : Match3) : Prop :=
  m.size ≠ 0 → alo ≤ m.i ∧ m.i + m.size ≤ ahi ∧ blo ≤ m.j ∧ m.j + m.size ≤ bhi

theorem flmStep_inv (a b : List Char) (alo ahi blo bhi i j : Nat)
    (_hi1 : alo ≤ i) (hi2 : i < ahi) (_hj1 : blo ≤ j) (hj2 : j < bhi)
    (best : Match3) (hbest : flmInv alo ahi blo bhi best) :
    flmInv alo ahi blo bhi (flmStep a b alo blo i best j) := by
  unfold flmStep
  dsimp only
  by_cases hlt : best.size < suffLen a b alo blo i j
  · rw [if_pos hlt]
    intro _
    have hk : suffLen a b alo blo i j ≠ 0 := by omega
    obtain ⟨h1, h2⟩ := suffLen_le a b alo blo i j hk
    dsimp only
    refine ⟨by omega, by omega, by omega, by omega⟩
  · rw [if_neg hlt]
    exact hbest

theorem flm_inv (a b : List Char) (alo ahi blo bhi : Nat) :
    flmInv alo ahi blo bhi (flm a b alo ahi blo bhi) := by
  unfold flm
  apply foldl_inv
  · intro h
    exact absurd rfl h
  · intro acc i hi hacc
    unfold flmRow
    apply foldl_inv
    · exact hacc
    · intro acc' j hj hacc'
      rw [List.mem_range'] at hi hj
      obtain ⟨ti, hti, rfl⟩ := hi
      obtain ⟨tj, htj, rfl⟩ := hj
      exact flmStep_inv a b alo ahi blo bhi _ _ (by omega) (by omega)
        (by omega) (by omega) acc' hacc'

theorem flmRow_size_le (a b : List Char) (alo blo bhi : Nat) (best : Match3) (i : Nat) :
    best.size ≤ (flmRow a b alo blo bhi best i).size := by
  unfold flmRow
  exact foldl_size_mono _ (flmStep_size_le a b alo blo i) _ best

theorem flm_ge_suffLen (a b : List Char) (alo ahi blo bhi i j : Nat)
    (hi : i ∈ List.range' alo (ahi - alo)) (hj : j ∈ List.range' blo (bhi - blo)) :
    suffLen a b alo blo i j ≤ (flm a b alo ahi blo bhi).size := by
  unfold flm
  obtain ⟨l1, l2, hsplit⟩ := List.append_of_mem hi
  rw [hsplit, List.foldl_append, List.foldl_cons]
  refine le_trans ?_ (foldl_size_mono _ (flmRow_size_le a b alo blo bhi) l2 _)
  unfold flmRow
  obtain ⟨m1, m2, hsplit2⟩ := List.append_of_mem hj
  rw [hsplit2, List.foldl_append, List.foldl_cons]
  refine le_trans ?_ (foldl_size_mono _ (flmStep_size_le a b alo blo i) m2 _)
  exact flmStep_size_ge a b alo blo i _ j

theorem suffLen_self (a : List Char) :
    ∀ i, i < a.length → suffLen a a 0 0 i i = i + 1 := by
  intro i
  induction i with
  | zero =>
    intro h
    unfold suffLen
    rw [if_pos ⟨Nat.le_refl 0, Nat.le_refl 0, rfl, by simp [h]⟩]
  | succ i ih =>
    intro h
    unfold suffLen
    rw [if_pos ⟨Nat.zero_le _, Nat.zero_le _, rfl, by simp [h]⟩]
    rw [ih (Nat.lt_of_succ_lt h)]
    omega

theorem flm_self (a : List Char) (ha : a ≠ []) :
    flm a a 0 a.length 0 a.length = ⟨0, 0, a.length⟩ := by
  have hn : 1 ≤ a.length := List.length_pos.mpr ha
  have hmem : a.length - 1 ∈ List.range' 0 (a.length - 0) := by
    rw [List.mem_range']
    exact ⟨a.length - 1, by omega, by omega⟩
  have hge := flm_ge_suffLen a a 0 a.length 0 a.length (a.length - 1) (a.length - 1)
    hmem hmem
  rw [suffLen_self a (a.length - 1) (by omega)] at hge
  have hsz : (flm a a 0 a.length 0 a.length).size ≠ 0 := by omega
  obtain ⟨h1, h2, h3, h4⟩ := flm_inv a a 0 a.length 0 a.length hsz
  have hEqSize : (flm a a 0 a.length 0 a.length).size = a.length := by omega
  have hEqI : (flm a a 0 a.length 0 a.length).i = 0 := by omega
  have hEqJ : (flm a a 0 a.length 0 a.length).j = 0 := by omega
  rcases hm : flm a a 0 a.length 0 a.length with ⟨mi, mj, ms⟩
  rw [hm] at hEqSize hEqI hEqJ
  dsimp only at hEqSize hEqI hEqJ
  rw [hEqSize, hEqI, hEqJ]

theorem matchesTotal_le (a b : List Char) :
    ∀ fuel alo ahi blo bhi,
      matchesTotal a b fuel alo ahi blo bhi ≤ ahi - alo ∧
      matchesTotal a b fuel alo ahi blo bhi ≤ bhi - blo := by
  intro fuel
  induction fuel with
  | zero =>
    intro alo ahi blo bhi
    exact ⟨Nat.zero_le _, Nat.zero_le _⟩
  | succ fuel ih =>
    intro alo ahi blo bhi
    unfold matchesTotal
    dsimp only
    by_cases hz : (flm a b alo ahi blo bhi).size = 0
    · rw [if_pos hz]
      exact ⟨Nat.zero_le _, Nat.zero_le _⟩
    · rw [if_neg hz]
      obtain ⟨h1, h2, h3, h4⟩ := flm_inv a b alo ahi blo bhi hz
      have ihl := ih alo (flm a b alo ahi blo bhi).i blo (flm a b alo ahi blo bhi).j
      have ihr := ih ((flm a b alo ahi blo bhi).i + (flm a b alo ahi blo bhi).size) ahi
        ((flm a b alo ahi blo bhi).j + (flm a b alo ahi blo bhi).size) bhi
      constructor <;> omega

theorem matchesTotal_empty (a b : List Char) (fuel alo blo bhi : Nat) :
    matchesTotal a b fuel alo alo blo bhi = 0 := by
  cases fuel with
  | zero => rfl
  | succ fuel =>
    have hflm : flm a b alo alo blo bhi = ⟨alo, blo, 0⟩ := by
      unfold flm
      rw [Nat.sub_self]
      rfl
    unfold matchesTotal
    rw [hflm]
    rfl

theorem matchesTotal_self (a : List Char) (ha : a ≠ []) :
    matchesTotal a a (a.length + a.length + 1) 0 a.length 0 a.length = a.length := by
  have hn : 1 ≤ a.length := List.length_pos.mpr ha
  have hflm := flm_self a ha
  unfold matchesTotal
  rw [hflm]
  dsimp only
  rw [if_neg (by omega)]
  rw [matchesTotal_empty]
  have h2 : matchesTotal a a (a.length + a.length) (0 + a.length) a.length
      (0 + a.length) a.length = 0 := by
    rw [Nat.zero_add]
    exact matchesTotal_empty a a (a.length + a.length) a.length a.length a.length
  rw [h2]
  omega

theorem ratio_nonneg_le_one (a b : List Char) : 0 ≤ ratio a b ∧ ratio a b ≤ 1 := by
  unfold ratio
  by_cases h : a.length + b.length = 0
  · rw [if_pos h]
    norm_num
  · rw [if_neg h]
    obtain ⟨hM1, hM2⟩ := matchesTotal_le a b (a.length + b.length + 1) 0 a.length 0 b.length
    rw [Rat.mkRat_eq_divInt, Rat.divInt_eq_div]
    constructor
    · positivity
    · rw [div_le_one (by positivity)]
      push_cast
      have : (0:ℚ) < (a.length : ℚ) + (b.length : ℚ) := by
        have hh : 0 < a.length + b.length := Nat.pos_of_ne_zero h
        exact_mod_cast hh
      have hnat : 2 * matchesTotal a b (a.length + b.length + 1) 0 a.length 0 b.length ≤
          a.length + b.length := by omega
      exact_mod_cast hnat

theorem ratio_self (a : List Char) (ha : a ≠ []) : ratio a a = 1 := by
  unfold ratio
  have hn : 1 ≤ a.length := List.length_pos.mpr ha
  rw [if_neg (by omega), matchesTotal_self a ha]
  rw [Rat.mkRat_eq_divInt, Rat.divInt_eq_div]
  rw [div_eq_one_iff_eq (by positivity)]
  push_cast
  ring

theorem char_toLower_eq (c : Char) :
    c.toLower = if c.toNat ≥ 65 ∧ c.toNat ≤ 90 then Char.ofNat (c.toNat + 32) else c :=
  rfl

theorem char_ofNat_add32 (n : Nat) (h1 : 65 ≤ n) (h2 : n ≤ 90) :
    (Char.ofNat (n + 32)).toNat = n + 32 := by
  interval_cases n <;> decide

theorem char_toLower_idem (c : Char) : c.toLower.toLower = c.toLower := by
  rw [char_toLower_eq c]
  by_cases h : c.toNat ≥ 65 ∧ c.toNat ≤ 90
  · rw [if_pos h]
    rw [char_toLower_eq]
    rw [if_neg ?_]
    intro hcon
    rw [char_ofNat_add32 c.toNat h.1 h.2] at hcon
    omega
  · rw [if_neg h]
    rw [char_toLower_eq]
    rw [if_neg h]

theorem map_toLower_idem (l : List Char) :
    (l.map Char.toLower).map Char.toLower = l.map Char.toLower := by
  rw [List.map_map]
  apply List.map_congr_left
  intro c _
  exact char_toLower_idem c

/-- C6 counterexample: the similarity of `src/app.py` (difflib's
`SequenceMatcher.ratio`) is not symmetric: `similar "aaba" "baaa"`
is 3/4 while `similar "baaa" "aaba"` is 1/2 (the greedy
longest-block recursion finds different totals in the two
directions). -/
theorem similar_not_symmetric :
    similar "aaba" "baaa" = 3/4 ∧
    similar "baaa" "aaba" = 1/2 ∧
    similar "aaba" "baaa" ≠ similar "baaa" "aaba" := by
  refine ⟨by with_unfolding_all decide, by with_unfolding_all decide,
    by with_unfolding_all decide⟩

/-- C6 amended: `similar` always returns a value in [0, 1],
`similar x x = 1` for every non-empty string `x`, and the comparison
is case-insensitive (`similar` is invariant under lowercasing its
arguments) — but it is not symmetric in general. -/
theorem similar_range_self_caseinsensitive :
    (∀ a b : String, 0 ≤ similar a b ∧ similar a b ≤ 1) ∧
    (∀ x : String, x ≠ "" → similar x x = 1) ∧
    (∀ a b : String, similar a b = similar (strLower a) (strLower b)) := by
  refine ⟨?_, ?_, ?_⟩
  · intro a b
    exact ratio_nonneg_le_one _ _
  · intro x hx
    unfold similar
    apply ratio_self
    intro hmap
    apply hx
    have hd : x.data = [] := List.eq_nil_of_map_eq_nil hmap
    exact String.ext (hd.trans rfl)
  · intro a b
    unfold similar strLower
    dsimp only
    rw [map_toLower_idem, map_toLower_idem]

/-- C6 amended witness: bounds for `"Rent"` vs `"rnt"`, perfect
self-similarity for `"ab"`, and case-invariance at a concrete pair. -/
theorem similar_range_self_caseinsensitive_witness :
    (0 ≤ similar "Rent" "rnt" ∧ similar "Rent" "rnt" ≤ 1) ∧
    similar "ab" "ab" = 1 ∧
    similar "Rent" "rnt" = similar (strLower "Rent") (strLower "rnt") :=
  ⟨similar_range_self_caseinsensitive.1 "Rent" "rnt",
   similar_range_self_caseinsensitive.2.1 "ab" (by decide),
   similar_range_self_caseinsensitive.2.2 "Rent" "rnt"⟩

end ValidationBot
